import Mathlib

/-!
Evaluator (evaluators/tcc/Evaluator.tcc) and trainer factories (common/src/MakeTrainer.cpp)

A shallow embedding of the `Evaluator` class template and of the two
trainer factories of `common`, followed by theorems about them.

Conventions of the embedding.

* The evaluator never computes with the `double` values it handles
  (`weight`, `label`, `prediction`): it reads them and passes them on.  The
  scalar type is therefore a type parameter `R`, and the data vector type is
  a type parameter `DV`.
* `std::tuple<Aggregators...>` is an ordered, fixed-size collection of
  objects of different concrete types.  An aggregator object is embedded as
  its current internal state together with its two member functions, so a
  tuple is a `List (Aggregator R)` whose members may have different state
  types.  `std::index_sequence<0, ..., N-1>` is `List.finRange N`.
* Mutation is explicit state passing.  The calls made on the collaborators
  (`Predict`, `Update`) are recorded, oldest first, in a call log.
* `std::ostream` is the text written so far; `operator<<` appends.
-/

namespace evaluators

/-! ## Collaborators (interfaces consumed by the evaluator) -/

/-- An example of the dataset: a data vector with a label and a weight. -/
structure Example (R DV : Type) where
  dataVector : DV
  label : R
  weight : R

/-- Accessor `example.GetDataVector()`. -/
def Example.GetDataVector {R DV : Type} (e : Example R DV) : DV := e.dataVector

/-- Accessor `example.GetLabel()`. -/
def Example.GetLabel {R DV : Type} (e : Example R DV) : R := e.label

/-- Accessor `example.GetWeight()`. -/
def Example.GetWeight {R DV : Type} (e : Example R DV) : R := e.weight

/-- Modelled from the spec: the dataset iterator (`dataset::GenericRowDataset::Iterator`,
whose header is not among the sources).  The spec describes it as a finite
sequence of examples read through `IsValid`, `Get` and `Next`; the iterator is
the list of the examples it has not yet passed. -/
structure Iterator (R DV : Type) where
  remaining : List (Example R DV)

/-- The call `iterator.IsValid()`: there is a current example. -/
def Iterator.IsValid {R DV : Type} (it : Iterator R DV) : Bool :=
  !it.remaining.isEmpty

/-- The call `iterator.Get()`: the current example, if there is one. -/
def Iterator.Get {R DV : Type} (it : Iterator R DV) : Option (Example R DV) :=
  it.remaining.head?

/-- The call `iterator.Next()`: advance past the current example. -/
def Iterator.Next {R DV : Type} (it : Iterator R DV) : Iterator R DV :=
  ⟨it.remaining.tail⟩

/-- Modelled from the spec: the row dataset (`dataset::GenericRowDataset`, whose
header is not among the sources), the stored examples in order.  It is built
from an example iterator and hands out a fresh iterator over all of its
examples on every `GetIterator()`. -/
structure GenericRowDataset (R DV : Type) where
  examples : List (Example R DV)

/-- The constructor `GenericRowDataset(exampleIterator)`: the examples the
iterator yields, in order. -/
def GenericRowDataset.ofIterator {R DV : Type} (exampleIterator : Iterator R DV) :
    GenericRowDataset R DV :=
  ⟨exampleIterator.remaining⟩

/-- The call `_rowDataset.GetIterator()`: a fresh iterator at the first example. -/
def GenericRowDataset.GetIterator {R DV : Type} (d : GenericRowDataset R DV) :
    Iterator R DV :=
  ⟨d.examples⟩

/-- A predictor: anything with `double Predict(const DataVector&) const`. -/
structure Predictor (R DV : Type) where
  Predict : DV → R

/-- An aggregator object: its current internal state, with its member
functions `Update` (mutating) and `ToString` (const).  Different aggregators
may have different state types. -/
structure Aggregator (R : Type) where
  State : Type
  state : State
  update : State → R → R → R → State
  toString : State → String

/-- The call `aggregator.Update(prediction, label, weight)`: the object after the call. -/
def Aggregator.Update {R : Type} (a : Aggregator R) (prediction label weight : R) :
    Aggregator R :=
  { a with state := a.update a.state prediction label weight }

/-- The call `aggregator.ToString()`. -/
def Aggregator.ToString {R : Type} (a : Aggregator R) : String :=
  a.toString a.state

/-- A call made by the evaluator on one of its collaborators. -/
inductive Call (R DV : Type) where
  /-- The call `predictor.Predict(dataVector)`. -/
  | Predict (dataVector : DV)
  /-- The call `std::get<index>(_evaluationAggregatorTuple).Update(prediction, label, weight)`. -/
  | Update (index : Nat) (prediction label weight : R)

/-! ## The evaluator -/

/-- The data members of `Evaluator<PredictorType, EvaluationAggregatorTupleType>`. -/
structure Evaluator (R DV : Type) where
  rowDataset : GenericRowDataset R DV
  evaluationAggregatorTuple : List (Aggregator R)

/-- The value of `std::tuple_size<EvaluationAggregatorTupleType>::value`. -/
def tuple_size {R : Type} (tuple : List (Aggregator R)) : Nat := tuple.length

/-- The index pack of `std::make_index_sequence<N>()`: `0, 1, ..., N-1`. -/
def make_index_sequence (N : Nat) : List (Fin N) := List.finRange N

/-- The constructor (Evaluator.tcc, lines 13-18).  The `static_assert` on the tuple
size rejects the instantiation with an empty tuple; otherwise the dataset is
built from the iterator and the tuple is moved into the member. -/
def Evaluator.new {R DV : Type} (exampleIterator : Iterator R DV)
    (evaluationAggregatorTuple : List (Aggregator R)) : Except String (Evaluator R DV) :=
  if tuple_size evaluationAggregatorTuple > 0 then
    .ok { rowDataset := GenericRowDataset.ofIterator exampleIterator,
          evaluationAggregatorTuple := evaluationAggregatorTuple }
  else
    .error "Evaluator must contains at least one aggregator"

/-- The factory `MakeEvaluator` (lines 67-71): packs its aggregator arguments into a
tuple in argument order and constructs the evaluator from it. -/
def MakeEvaluator {R DV : Type} (exampleIterator : Iterator R DV)
    (evaluationAggregatorTuple : List (Aggregator R)) : Except String (Evaluator R DV) :=
  Evaluator.new exampleIterator evaluationAggregatorTuple

/-- The state threaded through `Evaluate`: the aggregator tuple and the log of the
calls made so far, oldest first. -/
structure Run (R DV : Type) where
  tuple : List (Aggregator R)
  calls : List (Call R DV)

/-- One element of the pack expansion in `DispatchUpdate`:
`std::get<I>(_evaluationAggregatorTuple).Update(prediction, label, weight)`. -/
def DispatchUpdate.step {R DV : Type} {N : Nat} (prediction label weight : R)
    (s : Run R DV) (I : Fin N) : Run R DV :=
  { tuple := s.tuple.modify (fun a => a.Update prediction label weight) I.val,
    calls := s.calls ++ [Call.Update I.val prediction label weight] }

/-- The member `DispatchUpdate` (lines 44-50): the braced initializer list evaluates
its elements left to right, one `Update` per index of the pack. -/
def DispatchUpdate {R DV : Type} {N : Nat} (prediction label weight : R)
    (Is : List (Fin N)) (s : Run R DV) : Run R DV :=
  Is.foldl (DispatchUpdate.step prediction label weight) s

/-- The body of the `while` loop of `Evaluate` (lines 27-33) for the current example. -/
def Evaluate.body {R DV : Type} (predictor : Predictor R DV) (N : Nat)
    (e : Example R DV) (s : Run R DV) : Run R DV :=
  let weight := e.GetWeight
  let label := e.GetLabel
  let prediction := predictor.Predict e.GetDataVector
  DispatchUpdate prediction label weight (make_index_sequence N)
    { s with calls := s.calls ++ [Call.Predict e.GetDataVector] }

/-- The `while (iterator.IsValid())` loop of `Evaluate` (lines 25-35). -/
def Evaluate.loop {R DV : Type} (predictor : Predictor R DV) (N : Nat)
    (iterator : Iterator R DV) (s : Run R DV) : Run R DV :=
  if iterator.IsValid then
    match iterator.Get with
    | some e => Evaluate.loop predictor N iterator.Next (Evaluate.body predictor N e s)
    | none => s
  else s
termination_by iterator.remaining.length
decreasing_by
  cases iterator with
  | mk rem =>
    cases rem with
    | nil => simp [Iterator.IsValid] at *
    | cons x xs => simp [Iterator.Next]

/-- The member `Evaluate` (lines 20-36): the evaluator after the call, and the calls
made on the collaborators during it, oldest first. -/
def Evaluator.Evaluate {R DV : Type} (ev : Evaluator R DV) (predictor : Predictor R DV) :
    Evaluator R DV × List (Call R DV) :=
  let iterator := ev.rowDataset.GetIterator
  let s := Evaluate.loop predictor (tuple_size ev.evaluationAggregatorTuple) iterator
    { tuple := ev.evaluationAggregatorTuple, calls := [] }
  ({ ev with evaluationAggregatorTuple := s.tuple }, s.calls)

/-- The `for` loop of `DispatchPrint` (lines 60-63).  Reading `strings[i]` outside
the vector has no defined result: `none`.  The counter stays below
`strings.size()`, so the 64-bit increment does not wrap. -/
def DispatchPrint.loop (strings : List String) (i : Nat) (os : String) : Option String :=
  if i < strings.length then
    match strings[i]? with
    | some s => DispatchPrint.loop strings (i + 1) (os ++ "\t" ++ s)
    | none => none
  else some os
termination_by strings.length - i

/-- The vector built on line 57: `ToString()` of each tuple member, by index. -/
def DispatchPrint.strings {R : Type} (tuple : List (Aggregator R))
    (Is : List (Fin tuple.length)) : List String :=
  Is.map (fun I => (tuple.get I).ToString)

/-- The member `DispatchPrint` (lines 52-65): the stream after the call, or `none`
when an index into `strings` is out of bounds. -/
def Evaluator.DispatchPrint {R DV : Type} (ev : Evaluator R DV) (os : String)
    (Is : List (Fin ev.evaluationAggregatorTuple.length)) : Option String :=
  let strings := DispatchPrint.strings ev.evaluationAggregatorTuple Is
  match strings[0]? with
  | none => none
  | some s0 =>
    match DispatchPrint.loop strings 1 (os ++ s0) with
    | none => none
    | some os1 => some (os1 ++ "\n")

/-- The member `Print` (lines 38-42), a `const` member: the evaluator is handed back
as it was, with the stream after the call. -/
def Evaluator.Print {R DV : Type} (ev : Evaluator R DV) (os : String) :
    Option (Evaluator R DV × String) :=
  match ev.DispatchPrint os (make_index_sequence (tuple_size ev.evaluationAggregatorTuple)) with
  | none => none
  | some os1 => some (ev, os1)

/-! ## Observations used to state the properties -/

/-- The calls that one pass of the loop body makes for the example `e`. -/
def bodyCalls {R DV : Type} (predictor : Predictor R DV) (N : Nat) (e : Example R DV) :
    List (Call R DV) :=
  Call.Predict e.dataVector ::
    (List.range N).map (fun i => Call.Update i (predictor.Predict e.dataVector) e.label e.weight)

/-- What one aggregator becomes when it is fed the examples `xs` in order. -/
def feed {R DV : Type} (predictor : Predictor R DV) (xs : List (Example R DV))
    (a : Aggregator R) : Aggregator R :=
  xs.foldl (fun a e => a.Update (predictor.Predict e.dataVector) e.label e.weight) a

/-- The argument triples `(prediction, label, weight)` of the examples, in dataset order. -/
def triples {R DV : Type} (predictor : Predictor R DV) (xs : List (Example R DV)) :
    List (R × R × R) :=
  xs.map (fun e => (predictor.Predict e.dataVector, e.label, e.weight))

/-- The arguments of a call, when it is an `Update` on the aggregator of index `i`. -/
def Call.updateOf? {R DV : Type} (i : Nat) : Call R DV → Option (R × R × R)
  | Call.Update j p l w => if j = i then some (p, l, w) else none
  | Call.Predict _ => none

/-- The `Update` calls that a call log holds for the aggregator of index `i`, in order. -/
def updatesOf {R DV : Type} (i : Nat) (calls : List (Call R DV)) : List (R × R × R) :=
  calls.filterMap (Call.updateOf? i)

/-- An aggregator that counts its updates and always prints `text`. -/
def sampleAggregator (R : Type) (text : String) : Aggregator R :=
  { State := Nat, state := 0, update := fun n _ _ _ => n + 1, toString := fun _ => text }

/-- The dataset `[(dv1, label 1, weight 1), (dv2, label -1, weight 2)]`, the data
vectors being named by `1` and `2`. -/
def sampleExamples : List (Example ℚ Nat) :=
  [{ dataVector := 1, label := 1, weight := 1 }, { dataVector := 2, label := -1, weight := 2 }]

/-- A predictor answering `0.5` on the first data vector and `-0.3` otherwise. -/
def samplePredictor : Predictor ℚ Nat :=
  { Predict := fun dv => if dv = 1 then 1 / 2 else -3 / 10 }

/-- An evaluator over the sample dataset with a single aggregator. -/
def sampleEvaluator : Evaluator ℚ Nat :=
  { rowDataset := ⟨sampleExamples⟩,
    evaluationAggregatorTuple := [sampleAggregator ℚ "0 error(s)"] }

/-- An evaluator over an empty dataset with two aggregators. -/
def emptyDatasetEvaluator : Evaluator ℚ Nat :=
  { rowDataset := ⟨[]⟩,
    evaluationAggregatorTuple := [sampleAggregator ℚ "a", sampleAggregator ℚ "b"] }

end evaluators

namespace common

/-! ## Trainer factories (common/src/MakeTrainer.cpp) -/

/-- Modelled from the spec: the enumeration `LossArguments::LossFunction`, declared in
a header that is not among the sources.  The factories name its enumerators
`squared`, `log` and `hinge`; `other` stands for any further value that an
object of the enumeration type holds. -/
inductive LossFunction where
  | squared
  | log
  | hinge
  | other (value : Nat)
  deriving DecidableEq

/-- Modelled from the spec: the structure `LossArguments`, declared in a header that
is not among the sources; the factories read these two members. -/
structure LossArguments (R : Type) where
  lossFunction : LossFunction
  lossFunctionParameter : R

/-- The loss function objects the factories construct: `lossFunctions::SquaredLoss()`,
`lossFunctions::LogLoss(parameter)` and `lossFunctions::HingeLoss()`. -/
inductive Loss (R : Type) where
  | SquaredLoss
  | LogLoss (parameter : R)
  | HingeLoss
  deriving DecidableEq

/-- The exception `utilities::CommandLineParserErrorException` with its message. -/
structure CommandLineParserErrorException where
  message : String
  deriving DecidableEq

/-- The factory `common::MakeSGDIncrementalTrainer` (lines 24-42).  The generic factory
`trainers::MakeSGDIncrementalTrainer`, which is not among the sources, is the
parameter `trainersMake`; a `throw` is the `error` result. -/
def MakeSGDIncrementalTrainer {R A T : Type} (trainersMake : Nat → Loss R → A → T)
    (dim : Nat) (lossArguments : LossArguments R) (sgdArguments : A) :
    Except CommandLineParserErrorException T :=
  match lossArguments.lossFunction with
  | LossFunction.squared => .ok (trainersMake dim Loss.SquaredLoss sgdArguments)
  | LossFunction.log =>
    .ok (trainersMake dim (Loss.LogLoss lossArguments.lossFunctionParameter) sgdArguments)
  | LossFunction.hinge => .ok (trainersMake dim Loss.HingeLoss sgdArguments)
  | _ => .error ⟨"chosen loss function is not supported by this trainer"⟩

/-- The factory `common::MakeSimpleForestTrainer` (lines 44-56).  The generic factory
`trainers::MakeSimpleForestTrainer`, which is not among the sources, is the
parameter `trainersMake`; a `throw` is the `error` result. -/
def MakeSimpleForestTrainer {R A T : Type} (trainersMake : Loss R → A → T)
    (lossArguments : LossArguments R) (forestTrainerArguments : A) :
    Except CommandLineParserErrorException T :=
  match lossArguments.lossFunction with
  | LossFunction.squared => .ok (trainersMake Loss.SquaredLoss forestTrainerArguments)
  | _ => .error ⟨"chosen loss function is not supported by this trainer"⟩

end common

namespace evaluators

/-! ## Auxiliary facts about the embedding -/

/-- Visiting the indices `0, ..., k-1` in order and modifying each in place changes
exactly the first `k` entries. -/
theorem getElem?_foldl_modify_range {α : Type _} (f : α → α) (k : Nat) (l : List α) (j : Nat) :
    ((List.range k).foldl (fun t i => t.modify f i) l)[j]? =
      if j < k then l[j]?.map f else l[j]? := by
  induction k with
  | zero => simp
  | succ k ih =>
    rw [List.range_succ, List.foldl_append]
    simp only [List.foldl_cons, List.foldl_nil]
    rw [List.getElem?_modify, ih]
    by_cases h : k = j
    · subst h
      simp
    · by_cases h2 : j < k
      · have h3 : j < k + 1 := by omega
        simp [h, h2, h3]
      · have h3 : ¬ j < k + 1 := by omega
        simp [h, h2, h3]

/-- Modifying every index of a list in turn is `map`. -/
theorem foldl_modify_range_length {α : Type _} (f : α → α) (l : List α) :
    (List.range l.length).foldl (fun t i => t.modify f i) l = l.map f := by
  apply List.ext_getElem?
  intro j
  rw [getElem?_foldl_modify_range]
  by_cases h : j < l.length
  · simp [h]
  · have h2 : l.length ≤ j := by omega
    simp [h, List.getElem?_eq_none h2]

/-- The tuple after `DispatchUpdate` over an index pack. -/
theorem DispatchUpdate_tuple {R DV : Type} {N : Nat} (p l w : R) (Is : List (Fin N))
    (s : Run R DV) :
    (DispatchUpdate p l w Is s).tuple =
      (Is.map Fin.val).foldl (fun t i => t.modify (fun a => a.Update p l w) i) s.tuple := by
  unfold DispatchUpdate
  induction Is generalizing s with
  | nil => rfl
  | cons I Is ih => simp only [List.foldl_cons, List.map_cons]; rw [ih]; rfl

/-- The call log after `DispatchUpdate` over an index pack. -/
theorem DispatchUpdate_calls {R DV : Type} {N : Nat} (p l w : R) (Is : List (Fin N))
    (s : Run R DV) :
    (DispatchUpdate p l w Is s).calls =
      s.calls ++ (Is.map Fin.val).map (fun i => Call.Update i p l w) := by
  unfold DispatchUpdate
  induction Is generalizing s with
  | nil => simp
  | cons I Is ih =>
    simp only [List.foldl_cons, List.map_cons]
    rw [ih]
    simp [DispatchUpdate.step]

/-- The loop body maps `Update` over the whole tuple. -/
theorem body_tuple {R DV : Type} (predictor : Predictor R DV) (e : Example R DV)
    (s : Run R DV) :
    (Evaluate.body predictor s.tuple.length e s).tuple =
      s.tuple.map (fun a => a.Update (predictor.Predict e.dataVector) e.label e.weight) := by
  simp only [Evaluate.body, DispatchUpdate_tuple, make_index_sequence, List.map_coe_finRange]
  exact foldl_modify_range_length _ _

/-- The loop body logs one `Predict` and then one `Update` per index. -/
theorem body_calls {R DV : Type} (predictor : Predictor R DV) (N : Nat) (e : Example R DV)
    (s : Run R DV) :
    (Evaluate.body predictor N e s).calls = s.calls ++ bodyCalls predictor N e := by
  simp [Evaluate.body, DispatchUpdate_calls, make_index_sequence, List.map_coe_finRange,
    bodyCalls, Example.GetDataVector, Example.GetLabel, Example.GetWeight]

/-- The `while` loop runs the body once per remaining example, in order. -/
theorem loop_eq_foldl {R DV : Type} (predictor : Predictor R DV) (N : Nat)
    (xs : List (Example R DV)) (s : Run R DV) :
    Evaluate.loop predictor N ⟨xs⟩ s = xs.foldl (fun s e => Evaluate.body predictor N e s) s := by
  induction xs generalizing s with
  | nil => rw [Evaluate.loop]; simp [Iterator.IsValid]
  | cons x xs ih =>
    rw [Evaluate.loop]
    simp [Iterator.IsValid, Iterator.Get, Iterator.Next, ih]

/-- The tuple after running the body over the examples `xs`. -/
theorem foldl_body_tuple {R DV : Type} (predictor : Predictor R DV)
    (xs : List (Example R DV)) (s : Run R DV) (N : Nat) (hN : s.tuple.length = N) :
    (xs.foldl (fun s e => Evaluate.body predictor N e s) s).tuple =
      s.tuple.map (feed predictor xs) := by
  induction xs generalizing s with
  | nil =>
    have hid : feed predictor ([] : List (Example R DV)) = id := rfl
    simp [hid]
  | cons x xs ih =>
    subst hN
    simp only [List.foldl_cons]
    rw [ih _ (by rw [body_tuple]; simp), body_tuple, List.map_map]
    rfl

/-- The call log after running the body over the examples `xs`. -/
theorem foldl_body_calls {R DV : Type} (predictor : Predictor R DV) (N : Nat)
    (xs : List (Example R DV)) (s : Run R DV) :
    (xs.foldl (fun s e => Evaluate.body predictor N e s) s).calls =
      s.calls ++ xs.flatMap (bodyCalls predictor N) := by
  induction xs generalizing s with
  | nil => simp
  | cons x xs ih =>
    simp only [List.foldl_cons, List.flatMap_cons]
    rw [ih, body_calls, List.append_assoc]

/-- The aggregator tuple after `Evaluate`. -/
theorem Evaluate_tuple {R DV : Type} (ev : Evaluator R DV) (predictor : Predictor R DV) :
    (ev.Evaluate predictor).1.evaluationAggregatorTuple =
      ev.evaluationAggregatorTuple.map (feed predictor ev.rowDataset.examples) := by
  simp only [Evaluator.Evaluate, GenericRowDataset.GetIterator, loop_eq_foldl]
  exact foldl_body_tuple predictor _ _ _ rfl

/-- The calls made by `Evaluate`. -/
theorem Evaluate_calls {R DV : Type} (ev : Evaluator R DV) (predictor : Predictor R DV) :
    (ev.Evaluate predictor).2 =
      ev.rowDataset.examples.flatMap
        (bodyCalls predictor (tuple_size ev.evaluationAggregatorTuple)) := by
  simp only [Evaluator.Evaluate, GenericRowDataset.GetIterator, loop_eq_foldl,
    foldl_body_calls, List.nil_append]

/-- The dataset member is not touched by `Evaluate`. -/
theorem Evaluate_rowDataset {R DV : Type} (ev : Evaluator R DV) (predictor : Predictor R DV) :
    (ev.Evaluate predictor).1.rowDataset = ev.rowDataset := rfl

/-- The vector of strings of `DispatchPrint` over the full index pack. -/
theorem strings_eq_map {R : Type} (tuple : List (Aggregator R)) :
    DispatchPrint.strings tuple (make_index_sequence (tuple_size tuple)) =
      tuple.map Aggregator.ToString := by
  unfold DispatchPrint.strings make_index_sequence tuple_size
  conv_rhs => rw [← List.finRange_map_get tuple]
  rw [List.map_map]
  rfl

/-- Text in front of the accumulator of a join stays in front. -/
theorem intercalate_go_append (os acc sep : String) (l : List String) :
    String.intercalate.go (os ++ acc) sep l = os ++ String.intercalate.go acc sep l := by
  induction l generalizing acc with
  | nil => simp [String.intercalate.go]
  | cons a l ih =>
    simp only [String.intercalate.go]
    rw [← ih, String.append_assoc, String.append_assoc, String.append_assoc]

/-- The `for` loop from index `i` appends a tab and a string per remaining entry. -/
theorem loop_eq_go (strings : List String) (k i : Nat) (os : String)
    (hk : strings.length - i = k) :
    DispatchPrint.loop strings i os =
      some (String.intercalate.go os "\t" (strings.drop i)) := by
  induction k generalizing i os with
  | zero =>
    rw [DispatchPrint.loop]
    have h : ¬ i < strings.length := by omega
    have h2 : strings.drop i = [] := List.drop_eq_nil_of_le (by omega)
    simp [h, h2, String.intercalate.go]
  | succ k ih =>
    rw [DispatchPrint.loop]
    have h : i < strings.length := by omega
    rw [if_pos h, List.getElem?_eq_getElem h]
    simp only
    rw [ih (i + 1) _ (by omega), List.drop_eq_getElem_cons h]
    simp [String.intercalate.go]

/-- The stream after `DispatchPrint` on a non-empty tuple. -/
theorem DispatchPrint_eq {R DV : Type} (ev : Evaluator R DV) (os : String)
    (h : 0 < tuple_size ev.evaluationAggregatorTuple) :
    ev.DispatchPrint os (make_index_sequence (tuple_size ev.evaluationAggregatorTuple)) =
      some (os ++ "\t".intercalate (ev.evaluationAggregatorTuple.map Aggregator.ToString)
        ++ "\n") := by
  unfold Evaluator.DispatchPrint
  simp only [strings_eq_map]
  cases htup : ev.evaluationAggregatorTuple with
  | nil => simp [tuple_size, htup] at h
  | cons a as =>
    simp only [List.map_cons, List.getElem?_cons_zero]
    rw [loop_eq_go _ _ 1 _ rfl]
    simp [String.intercalate, intercalate_go_append]

/-- Among the indices `0, ..., N-1` exactly one is `i`, when `i < N`. -/
theorem filterMap_range_eq {α : Type _} (c : α) (i N : Nat) :
    (List.range N).filterMap (fun j => if j = i then some c else none) =
      if i < N then [c] else [] := by
  induction N with
  | zero => simp
  | succ N ih =>
    rw [List.range_succ, List.filterMap_append, ih]
    by_cases h1 : i < N
    · have h2 : ¬ N = i := by omega
      have h3 : i < N + 1 := by omega
      simp [h1, h2, h3]
    · by_cases h2 : N = i
      · subst h2
        simp
      · have h3 : ¬ i < N + 1 := by omega
        simp [h1, h2, h3]

/-- The calls of one loop pass hold exactly one `Update` for each aggregator. -/
theorem updatesOf_bodyCalls {R DV : Type} (predictor : Predictor R DV) (N i : Nat)
    (hi : i < N) (e : Example R DV) :
    updatesOf i (bodyCalls predictor N e) =
      [(predictor.Predict e.dataVector, e.label, e.weight)] := by
  simp only [updatesOf, bodyCalls, List.filterMap_cons, Call.updateOf?, List.filterMap_map]
  have h := filterMap_range_eq (predictor.Predict e.dataVector, e.label, e.weight) i N
  rw [if_pos hi] at h
  exact h

/-- The `Update` calls for one aggregator over a whole pass are the triples of the examples. -/
theorem updatesOf_flatMap_bodyCalls {R DV : Type} (predictor : Predictor R DV) (N i : Nat)
    (hi : i < N) (xs : List (Example R DV)) :
    updatesOf i (xs.flatMap (bodyCalls predictor N)) = triples predictor xs := by
  induction xs with
  | nil => rfl
  | cons x xs ih =>
    have hx := updatesOf_bodyCalls predictor N i hi x
    unfold updatesOf at ih hx ⊢
    rw [List.flatMap_cons, List.filterMap_append, ih, hx]
    rfl

/-- Feeding the examples is the left fold of `Update` over their triples. -/
theorem feed_eq_foldl_triples {R DV : Type} (predictor : Predictor R DV)
    (xs : List (Example R DV)) (a : Aggregator R) :
    feed predictor xs a = (triples predictor xs).foldl (fun a t => a.Update t.1 t.2.1 t.2.2) a := by
  simp [feed, triples, List.foldl_map]

/-- Feeding a concatenation is feeding the parts one after the other. -/
theorem feed_append {R DV : Type} (predictor : Predictor R DV)
    (xs ys : List (Example R DV)) (a : Aggregator R) :
    feed predictor (xs ++ ys) a = feed predictor ys (feed predictor xs a) := by
  simp [feed, List.foldl_append]

/-- C1: `Evaluate` makes, on each aggregator of the tuple, exactly the calls
`Update(Predict(e.dataVector), e.label, e.weight)` for the examples `e` of the
dataset, one per example and in dataset order; the aggregator after `Evaluate`
is the left fold of its own `Update` over these triples, starting from the
aggregator before the call, and the tuple keeps its size. -/
theorem Evaluate_updates_each_aggregator {R DV : Type} (ev : Evaluator R DV)
    (predictor : Predictor R DV) (i : Nat)
    (hi : i < tuple_size ev.evaluationAggregatorTuple) :
    updatesOf i (ev.Evaluate predictor).2 = triples predictor ev.rowDataset.examples ∧
    (ev.Evaluate predictor).1.evaluationAggregatorTuple[i]? =
      ev.evaluationAggregatorTuple[i]?.map
        (fun a => (triples predictor ev.rowDataset.examples).foldl
          (fun a t => a.Update t.1 t.2.1 t.2.2) a) ∧
    tuple_size (ev.Evaluate predictor).1.evaluationAggregatorTuple =
      tuple_size ev.evaluationAggregatorTuple := by
  refine ⟨?_, ?_, ?_⟩
  · rw [Evaluate_calls]
    exact updatesOf_flatMap_bodyCalls predictor _ i hi _
  · rw [Evaluate_tuple, List.getElem?_map]
    congr 1
    funext a
    exact feed_eq_foldl_triples predictor _ a
  · rw [Evaluate_tuple]
    simp [tuple_size]

/-- On the sample dataset `[(dv1, 1, 1), (dv2, -1, 2)]` with predictions `0.5` and
`-0.3`, the single aggregator receives `Update(0.5, 1, 1)` then `Update(-0.3, -1, 2)`. -/
theorem Evaluate_updates_each_aggregator_sample :
    0 < tuple_size sampleEvaluator.evaluationAggregatorTuple ∧
    updatesOf 0 (sampleEvaluator.Evaluate samplePredictor).2 =
      [(1 / 2, 1, 1), (-3 / 10, -1, 2)] := by
  have h : 0 < tuple_size sampleEvaluator.evaluationAggregatorTuple := by decide
  refine ⟨h, ?_⟩
  rw [(Evaluate_updates_each_aggregator sampleEvaluator samplePredictor 0 h).1]
  simp [triples, sampleEvaluator, sampleExamples, samplePredictor]

/-- C3: `Evaluate` is cumulative.  Running it over the examples of the evaluator and
then over the examples `ys`, with no reset in between, leaves the same aggregator
tuple as one run over the concatenation; running it twice over the same dataset
leaves each aggregator as it is after being fed all examples, pass after pass. -/
theorem Evaluate_cumulative {R DV : Type} (ev : Evaluator R DV) (predictor : Predictor R DV)
    (ys : List (Example R DV)) :
    (Evaluator.Evaluate { (ev.Evaluate predictor).1 with rowDataset := ⟨ys⟩ }
        predictor).1.evaluationAggregatorTuple =
      (Evaluator.Evaluate { ev with rowDataset := ⟨ev.rowDataset.examples ++ ys⟩ }
        predictor).1.evaluationAggregatorTuple ∧
    ((ev.Evaluate predictor).1.Evaluate predictor).1.evaluationAggregatorTuple =
      ev.evaluationAggregatorTuple.map
        (feed predictor (ev.rowDataset.examples ++ ev.rowDataset.examples)) := by
  constructor
  · rw [Evaluate_tuple, Evaluate_tuple]
    simp only [Evaluate_tuple, List.map_map]
    congr 1
    funext a
    simp [feed_append]
  · rw [Evaluate_tuple, Evaluate_rowDataset, Evaluate_tuple, List.map_map]
    congr 1
    funext a
    simp [feed_append]

/-- C4: on a dataset without examples `Evaluate` returns, makes no call at all and
leaves the evaluator as it was, so `Print` afterwards gives what `Print` gave before. -/
theorem Evaluate_empty_dataset {R DV : Type} (ev : Evaluator R DV) (predictor : Predictor R DV)
    (h : ev.rowDataset.examples = []) :
    ev.Evaluate predictor = (ev, []) ∧
    (ev.Evaluate predictor).1.evaluationAggregatorTuple = ev.evaluationAggregatorTuple ∧
    ∀ os : String, (ev.Evaluate predictor).1.Print os = ev.Print os := by
  have h1 : ev.Evaluate predictor = (ev, []) := by
    apply Prod.ext
    · have ht := Evaluate_tuple ev predictor
      have hd := Evaluate_rowDataset ev predictor
      rw [h] at ht
      have hid : feed predictor ([] : List (Example R DV)) = id := rfl
      rw [hid, List.map_id] at ht
      cases hev : (ev.Evaluate predictor).1 with
      | mk d t =>
        rw [hev] at ht hd
        cases ev
        simp_all
    · rw [Evaluate_calls, h]
      rfl
  rw [h1]
  exact ⟨rfl, rfl, fun _ => rfl⟩

/-- The evaluator over the empty sample dataset is left as it was by `Evaluate`. -/
theorem Evaluate_empty_dataset_sample :
    emptyDatasetEvaluator.rowDataset.examples = [] ∧
    emptyDatasetEvaluator.Evaluate samplePredictor = (emptyDatasetEvaluator, []) :=
  ⟨rfl, (Evaluate_empty_dataset emptyDatasetEvaluator samplePredictor rfl).1⟩

/-! ## Properties of `Print` and of construction -/

/-- C6: construction with an empty aggregator tuple fails, through the constructor
and through `MakeEvaluator`; construction with one or more aggregators succeeds
and stores them in the given order; so every constructed evaluator has at least
one aggregator. -/
theorem Evaluator_new_requires_aggregators {R DV : Type} (exampleIterator : Iterator R DV)
    (tuple : List (Aggregator R)) :
    Evaluator.new exampleIterator ([] : List (Aggregator R)) =
      .error "Evaluator must contains at least one aggregator" ∧
    MakeEvaluator exampleIterator ([] : List (Aggregator R)) =
      .error "Evaluator must contains at least one aggregator" ∧
    (tuple ≠ [] →
      Evaluator.new exampleIterator tuple =
        .ok { rowDataset := GenericRowDataset.ofIterator exampleIterator,
              evaluationAggregatorTuple := tuple } ∧
      MakeEvaluator exampleIterator tuple =
        .ok { rowDataset := GenericRowDataset.ofIterator exampleIterator,
              evaluationAggregatorTuple := tuple }) ∧
    (∀ ev : Evaluator R DV,
      (Evaluator.new exampleIterator tuple = .ok ev ∨
        MakeEvaluator exampleIterator tuple = .ok ev) →
      0 < tuple_size ev.evaluationAggregatorTuple ∧ ev.evaluationAggregatorTuple = tuple) := by
  refine ⟨rfl, rfl, ?_, ?_⟩
  · intro hne
    have hpos : tuple_size tuple > 0 := List.length_pos.mpr hne
    simp [MakeEvaluator, Evaluator.new, hpos]
  · intro ev hev
    have hev2 : Evaluator.new exampleIterator tuple = .ok ev := by
      rcases hev with h | h
      · exact h
      · exact h
    unfold Evaluator.new at hev2
    split at hev2
    · rename_i hpos
      cases hev2
      exact ⟨hpos, rfl⟩
    · cases hev2

/-- Construction of the sample evaluator from its dataset and its one aggregator succeeds. -/
theorem Evaluator_new_requires_aggregators_sample :
    [sampleAggregator ℚ "0 error(s)"] ≠ [] ∧
    Evaluator.new ⟨sampleExamples⟩ [sampleAggregator ℚ "0 error(s)"] = .ok sampleEvaluator :=
  ⟨List.cons_ne_nil _ _,
    ((Evaluator_new_requires_aggregators ⟨sampleExamples⟩
      [sampleAggregator ℚ "0 error(s)"]).2.2.1 (List.cons_ne_nil _ _)).1⟩

/-- C10: for every evaluator that the constructor yields, the vector of strings built
in `DispatchPrint` has as many entries as the tuple has aggregators, at least
one; the read `strings[0]` and the reads `strings[i]` for `1 ≤ i < n` are in
bounds, and `DispatchPrint` never takes an out-of-bounds branch. -/
theorem DispatchPrint_index_safe {R DV : Type} (exampleIterator : Iterator R DV)
    (tuple : List (Aggregator R)) (ev : Evaluator R DV)
    (h : Evaluator.new exampleIterator tuple = .ok ev) :
    (DispatchPrint.strings ev.evaluationAggregatorTuple
      (make_index_sequence (tuple_size ev.evaluationAggregatorTuple))).length =
        tuple_size ev.evaluationAggregatorTuple ∧
    0 < tuple_size ev.evaluationAggregatorTuple ∧
    (∀ i : Nat, i < tuple_size ev.evaluationAggregatorTuple →
      (DispatchPrint.strings ev.evaluationAggregatorTuple
        (make_index_sequence (tuple_size ev.evaluationAggregatorTuple)))[i]? ≠ none) ∧
    ∀ os : String,
      ev.DispatchPrint os (make_index_sequence (tuple_size ev.evaluationAggregatorTuple)) ≠
        none := by
  have hpos : 0 < tuple_size ev.evaluationAggregatorTuple := by
    unfold Evaluator.new at h
    split at h
    · rename_i hpos
      cases h
      exact hpos
    · cases h
  refine ⟨?_, hpos, ?_, ?_⟩
  · rw [strings_eq_map]
    simp [tuple_size]
  · intro i hi
    rw [strings_eq_map]
    simp only [tuple_size] at hi
    simp [hi]
  · intro os
    rw [DispatchPrint_eq ev os hpos]
    simp

/-- The constructed sample evaluator prints without an out-of-bounds read. -/
theorem DispatchPrint_index_safe_sample :
    Evaluator.new ⟨sampleExamples⟩ [sampleAggregator ℚ "0 error(s)"] = .ok sampleEvaluator ∧
    ∀ os : String,
      sampleEvaluator.DispatchPrint os
        (make_index_sequence (tuple_size sampleEvaluator.evaluationAggregatorTuple)) ≠ none :=
  ⟨rfl, (DispatchPrint_index_safe ⟨sampleExamples⟩ [sampleAggregator ℚ "0 error(s)"]
    sampleEvaluator rfl).2.2.2⟩

end evaluators

namespace common

/-! ## Properties of the trainer factories -/

/-- C9: `MakeSGDIncrementalTrainer` returns a trainer exactly for the loss functions
`squared`, `log` and `hinge`, built with `SquaredLoss`, `LogLoss(lossFunctionParameter)`
and `HingeLoss`, the parameter being used in the `log` case only;
`MakeSimpleForestTrainer` returns a trainer exactly for `squared`; for every
other loss function value each factory throws `CommandLineParserErrorException`. -/
theorem MakeTrainer_selects_by_loss_function {R A T B U : Type}
    (makeSGD : Nat → Loss R → A → T) (makeForest : Loss R → B → U)
    (dim : Nat) (parameter : R) (sgdArguments : A) (forestTrainerArguments : B) :
    MakeSGDIncrementalTrainer makeSGD dim ⟨LossFunction.squared, parameter⟩ sgdArguments =
      .ok (makeSGD dim Loss.SquaredLoss sgdArguments) ∧
    MakeSGDIncrementalTrainer makeSGD dim ⟨LossFunction.log, parameter⟩ sgdArguments =
      .ok (makeSGD dim (Loss.LogLoss parameter) sgdArguments) ∧
    MakeSGDIncrementalTrainer makeSGD dim ⟨LossFunction.hinge, parameter⟩ sgdArguments =
      .ok (makeSGD dim Loss.HingeLoss sgdArguments) ∧
    (∀ lossArguments : LossArguments R,
      (∃ trainer, MakeSGDIncrementalTrainer makeSGD dim lossArguments sgdArguments =
          .ok trainer) ↔
        (lossArguments.lossFunction = LossFunction.squared ∨
          lossArguments.lossFunction = LossFunction.log ∨
          lossArguments.lossFunction = LossFunction.hinge)) ∧
    (∀ lossArguments : LossArguments R,
      (∃ trainer, MakeSGDIncrementalTrainer makeSGD dim lossArguments sgdArguments =
          .ok trainer) ∨
        MakeSGDIncrementalTrainer makeSGD dim lossArguments sgdArguments =
          .error ⟨"chosen loss function is not supported by this trainer"⟩) ∧
    MakeSimpleForestTrainer makeForest ⟨LossFunction.squared, parameter⟩
        forestTrainerArguments =
      .ok (makeForest Loss.SquaredLoss forestTrainerArguments) ∧
    (∀ lossArguments : LossArguments R,
      (∃ trainer, MakeSimpleForestTrainer makeForest lossArguments forestTrainerArguments =
          .ok trainer) ↔
        lossArguments.lossFunction = LossFunction.squared) ∧
    (∀ lossArguments : LossArguments R,
      (∃ trainer, MakeSimpleForestTrainer makeForest lossArguments forestTrainerArguments =
          .ok trainer) ∨
        MakeSimpleForestTrainer makeForest lossArguments forestTrainerArguments =
          .error ⟨"chosen loss function is not supported by this trainer"⟩) := by
  refine ⟨rfl, rfl, rfl, ?_, ?_, rfl, ?_, ?_⟩
  · rintro ⟨lf, p⟩
    cases lf <;> simp [MakeSGDIncrementalTrainer]
  · rintro ⟨lf, p⟩
    cases lf <;> simp [MakeSGDIncrementalTrainer]
  · rintro ⟨lf, p⟩
    cases lf <;> simp [MakeSimpleForestTrainer]
  · rintro ⟨lf, p⟩
    cases lf <;> simp [MakeSimpleForestTrainer]

end common
